import Mathlib

/-!
Verification of the git watcher IPC bridge, the window manager and the
theme scanner path check of the 1code repository.

The bridge (ipc-bridge source file) keeps a map from worktree path to
subscription records and talks to two external collaborators, the
watcher registry and the git cache; those collaborators and the window
transport are modelled as an effect trace that the bridge operations
emit, while the subscription table itself is modelled as an association
list with the semantics of a JS Map (unique keys, insertion order).
-/

namespace GitWatcherBridge

/-- A window as the bridge observes it: Electron numeric id plus the
destroyed flag consulted through isDestroyed. -/
structure Window where
  id : Nat
  destroyed : Bool
deriving DecidableEq, Repr

/-- One record of the activeSubscriptions map: the subscribing window's
id and the unsubscribe capability returned by gitWatcherRegistry.subscribe,
modelled as an opaque capability identifier. -/
structure Subscription where
  windowId : Nat
  unsubscribe : Nat
deriving DecidableEq, Repr

/-- Observable side effects of the bridge on its collaborators: calls into
the watcher registry, cache invalidations, sends to a window webContents,
invocations of an unsubscribe capability, and the registry disposeAll. -/
inductive Effect where
  | registrySubscribe (path : String)
  | invalidateStatus (path : String)
  | invalidateParsedDiff (path : String)
  | send (windowId : Nat) (path : String) (changes : List String)
  | invokeUnsubscribe (cap : Nat)
  | disposeAll
deriving DecidableEq, Repr

/-- The activeSubscriptions map, worktree path to record, as an
association list with unique keys in insertion order. -/
abbrev SubTable := List (String × Subscription)

/-- Map.get on the subscription table. -/
def lookupSub : SubTable → String → Option Subscription
  | [], _ => none
  | e :: rest, p => if e.1 = p then some e.2 else lookupSub rest p

/-- Map.set on the subscription table: replace in place if the key is
present, append otherwise. -/
def setSub : SubTable → String → Subscription → SubTable
  | [], p, v => [(p, v)]
  | e :: rest, p, v => if e.1 = p then (p, v) :: rest else e :: setSub rest p v

/-- Map.delete on the subscription table (keys are unique, so removing
every entry with the key agrees with JS Map.delete). -/
def eraseSub : SubTable → String → SubTable
  | [], _ => []
  | e :: rest, p => if e.1 = p then eraseSub rest p else e :: eraseSub rest p

/-- The event payload handed to the registry listener. -/
structure GitWatchEvent where
  worktreePath : String
  changes : List String
deriving DecidableEq, Repr

/-- BrowserWindow.fromId: resolve a window by numeric id among the
currently existing windows. -/
def fromId (windows : List Window) (i : Nat) : Option Window :=
  windows.find? (fun w => w.id = i)

/-- The git:subscribe-watcher handler. The sender argument is the result
of BrowserWindow.fromWebContents on the requesting web contents; cap is
the unsubscribe capability the registry subscribe call returns. Returns
the new table and the emitted effects. -/
def handleSubscribe (subs : SubTable) (worktreePath : String)
    (sender : Option Window) (cap : Nat) : SubTable × List Effect :=
  if worktreePath = "" then (subs, [])
  else if (lookupSub subs worktreePath).isSome then (subs, [])
  else
    match sender with
    | none => (subs, [])
    | some w =>
      if w.destroyed then (subs, [])
      else
        (setSub subs worktreePath ⟨w.id, cap⟩,
          [Effect.registrySubscribe worktreePath])

/-- The watch-event callback the handler registers with the registry for
worktreePath. It reads the subscription table at event time, resolves the
recorded window by id, and only then invalidates the two cache slots and
attempts the send; sendOk is false when webContents.send throws (the
exception is swallowed by the try block). -/
def watchCallback (subs : SubTable) (windows : List Window)
    (worktreePath : String) (ev : GitWatchEvent) (sendOk : Bool) : List Effect :=
  match lookupSub subs worktreePath with
  | none => []
  | some sub =>
    match fromId windows sub.windowId with
    | none => []
    | some w =>
      if w.destroyed then []
      else
        [Effect.invalidateStatus worktreePath,
          Effect.invalidateParsedDiff worktreePath] ++
          (if sendOk then
            [Effect.send sub.windowId ev.worktreePath ev.changes]
          else [])

/-- The git:unsubscribe-watcher handler. -/
def handleUnsubscribe (subs : SubTable) (worktreePath : String) :
    SubTable × List Effect :=
  if worktreePath = "" then (subs, [])
  else
    match lookupSub subs worktreePath with
    | none => (subs, [])
    | some sub =>
      (eraseSub subs worktreePath, [Effect.invokeUnsubscribe sub.unsubscribe])

/-- cleanupWindowSubscriptions: iterate over the map, unsubscribing and
deleting every entry whose recorded window id matches. -/
def cleanupWindowSubscriptions : SubTable → Nat → SubTable × List Effect
  | [], _ => ([], [])
  | e :: rest, windowId =>
    let r := cleanupWindowSubscriptions rest windowId
    if e.2.windowId = windowId then
      (r.1, Effect.invokeUnsubscribe e.2.unsubscribe :: r.2)
    else
      (e :: r.1, r.2)

/-- The unsubscribe loop of cleanupGitWatchers over the table values. -/
def unsubscribeAll : SubTable → List Effect
  | [] => []
  | e :: rest => Effect.invokeUnsubscribe e.2.unsubscribe :: unsubscribeAll rest

/-- cleanupGitWatchers: unsubscribe every remaining record, clear the
table, then await gitWatcherRegistry.disposeAll. -/
def cleanupGitWatchers (subs : SubTable) : SubTable × List Effect :=
  ([], unsubscribeAll subs ++ [Effect.disposeAll])

end GitWatcherBridge

namespace ThemeScanner

/-!
Model of the vscode:load-theme allowed-directory check of the theme
scanner source file. Node path operations are modelled at the character
level for absolute posix paths: normalize collapses empty and dot
segments and resolves dot-dot segments against the stack, join inserts
the slash separator, and startsWith is string-prefix comparison.
-/

/-- Split a character list on the slash separator. -/
def splitOnSlash : List Char → List (List Char)
  | [] => [[]]
  | c :: rest =>
    let r := splitOnSlash rest
    if c = '/' then [] :: r
    else
      match r with
      | [] => [[c]]
      | s :: ss => (c :: s) :: ss

/-- One step of posix normalization over the reversed stack of kept
segments: drop empty and single-dot segments, pop on dot-dot. -/
def normStep (stack : List (List Char)) (seg : List Char) : List (List Char) :=
  if seg = [] ∨ seg = ['.'] then stack
  else if seg = ['.', '.'] then stack.tail
  else seg :: stack

/-- Render kept segments back into an absolute path. -/
def joinSegs : List (List Char) → List Char
  | [] => []
  | s :: rest => '/' :: (s ++ joinSegs rest)

/-- Model of path.normalize for an absolute posix path. -/
def normalizePath (p : String) : String :=
  let stack := (splitOnSlash p.toList).foldl normStep []
  if stack = [] then "/" else ⟨joinSegs stack.reverse⟩

/-- Character-list prefix test. -/
def isPre : List Char → List Char → Bool
  | [], _ => true
  | _ :: _, [] => false
  | a :: as, b :: bs => a = b && isPre as bs

/-- Model of String.prototype.startsWith. -/
def strStartsWith (s p : String) : Bool :=
  isPre p.toList s.toList

/-- EXTENSION_PATHS: the four allowed extensions directories under the
home directory (path.join of homedir with the editor-specific parts). -/
def extensionPaths (home : String) : List String :=
  [home ++ "/.vscode/extensions",
   home ++ "/.vscode-insiders/extensions",
   home ++ "/.cursor/extensions",
   home ++ "/.windsurf/extensions"]

/-- The allowed-directory check of the vscode:load-theme handler: the
normalized requested path must start with some normalized allowed
directory followed by the separator, or with the allowed directory
itself. -/
def isAllowedPath (home themePath : String) : Bool :=
  let normalizedPath := normalizePath themePath
  (extensionPaths home).any (fun allowedDir =>
    let normalizedAllowed := normalizePath allowedDir
    strStartsWith normalizedPath (normalizedAllowed ++ "/") ||
      strStartsWith normalizedPath normalizedAllowed)

/-- Spec-side notion: the requested path actually resides under the
directory, i.e. its normal form extends the directory at a path
component boundary. -/
def residesUnder (dir p : String) : Bool :=
  strStartsWith (normalizePath p) (normalizePath dir ++ "/")

end ThemeScanner

namespace WindowManagerModel

/-!
Model of the WindowManager class of the window-manager source file,
restricted to the state the register method and its closed handler
touch. Electron window ids are naturals; the windows map is modelled by
its key list in insertion order (the values are the window objects
themselves and carry no further state the claims need), windowIdMap as
an association list. The closed handler also calls
cleanupWindowSubscriptions, an effect on the bridge modelled separately
in the GitWatcherBridge namespace.
-/

structure WMState where
  windows : List Nat
  focusedWindowId : Option Nat
  mainWindowId : Option Nat
  windowIdMap : List (Nat × String)
  nextSecondaryId : Nat
deriving DecidableEq, Repr

/-- The field initializers of the WindowManager class. -/
def initWM : WMState :=
  { windows := []
    focusedWindowId := none
    mainWindowId := none
    windowIdMap := []
    nextSecondaryId := 2 }

/-- Map.set on the windows map, tracked by key. -/
def setWin : List Nat → Nat → List Nat
  | [], e => [e]
  | x :: rest, e => if x = e then x :: rest else x :: setWin rest e

/-- Map.set on windowIdMap. -/
def setId : List (Nat × String) → Nat → String → List (Nat × String)
  | [], e, s => [(e, s)]
  | x :: rest, e, s => if x.1 = e then (e, s) :: rest else x :: setId rest e s

/-- Map.delete on the windows map (keys unique). -/
def eraseWin : List Nat → Nat → List Nat
  | [], _ => []
  | x :: rest, e => if x = e then eraseWin rest e else x :: eraseWin rest e

/-- Map.delete on windowIdMap (keys unique). -/
def eraseId : List (Nat × String) → Nat → List (Nat × String)
  | [], _ => []
  | x :: rest, e => if x.1 = e then eraseId rest e else x :: eraseId rest e

/-- WindowManager.register for a window with Electron id eid: insert
into the windows map, assign the stable id ("main" for the first window
ever, otherwise "window-" with the incrementing secondary counter),
record it in windowIdMap, and set focus if it is the only window.
Returns the new state and the assigned stable id. -/
def register (s : WMState) (eid : Nat) : WMState × String :=
  let windows := setWin s.windows eid
  match s.mainWindowId with
  | none =>
    let stableId := "main"
    let windowIdMap := setId s.windowIdMap eid stableId
    ({ windows := windows
       focusedWindowId :=
         if windows.length = 1 then some eid else s.focusedWindowId
       mainWindowId := some eid
       windowIdMap := windowIdMap
       nextSecondaryId := s.nextSecondaryId }, stableId)
  | some m =>
    let stableId := "window-" ++ toString s.nextSecondaryId
    let windowIdMap := setId s.windowIdMap eid stableId
    ({ windows := windows
       focusedWindowId :=
         if windows.length = 1 then some eid else s.focusedWindowId
       mainWindowId := some m
       windowIdMap := windowIdMap
       nextSecondaryId := s.nextSecondaryId + 1 }, stableId)

/-- The closed handler installed by register: delete the window from
both maps, clear focus if it was focused, and if the tracked main
window closed, move the internal tracking to the first remaining window
(or null), deliberately leaving every remaining stable id unchanged. -/
def closedEv (s : WMState) (eid : Nat) : WMState :=
  let windows := eraseWin s.windows eid
  { windows := windows
    focusedWindowId :=
      if s.focusedWindowId = some eid then none else s.focusedWindowId
    mainWindowId :=
      if s.mainWindowId = some eid then windows.head? else s.mainWindowId
    windowIdMap := eraseId s.windowIdMap eid
    nextSecondaryId := s.nextSecondaryId }

/-- External stimuli the manager reacts to: a registration, a window
closed event, a focus event. -/
inductive Op where
  | register (eid : Nat)
  | closed (eid : Nat)
  | focus (eid : Nat)
deriving DecidableEq, Repr

def step (s : WMState) : Op → WMState
  | Op.register eid => (register s eid).1
  | Op.closed eid => closedEv s eid
  | Op.focus eid => { s with focusedWindowId := some eid }

def run : WMState → List Op → WMState
  | s, [] => s
  | s, op :: ops => run (step s op) ops

/-- Electron never hands out the id of a live window to a new window:
a register op is admissible only when its id is not currently
registered. -/
def okOp (s : WMState) : Op → Bool
  | Op.register eid => ! decide (eid ∈ s.windows)
  | _ => true

/-- An op sequence is admissible from s when every register op carries
an id fresh at the moment it executes. -/
def freshRun : WMState → List Op → Bool
  | _, [] => true
  | s, op :: ops => okOp s op && freshRun (step s op) ops

end WindowManagerModel

open GitWatcherBridge

/-- Deleting a key from the subscription table makes its lookup fail. -/
theorem lookup_eraseSub (subs : SubTable) (p : String) :
    lookupSub (eraseSub subs p) p = none := by
  induction subs with
  | nil => rfl
  | cons e rest ih =>
    by_cases h : e.1 = p <;> simp [eraseSub, h, lookupSub, ih]

/-- Every table entry has its capability invoked by the unsubscribe loop. -/
theorem mem_unsubscribeAll (subs : SubTable) (e : String × Subscription)
    (h : e ∈ subs) :
    Effect.invokeUnsubscribe e.2.unsubscribe ∈ unsubscribeAll subs := by
  induction subs with
  | nil => cases h
  | cons x rest ih =>
    rcases List.mem_cons.mp h with h | h
    · subst h; simp [unsubscribeAll]
    · simp [unsubscribeAll, ih h]

/-- C2: a subscribe request for a worktree path that already has a
recorded Subscription is a no-op: the table is returned unchanged (so
the recorded window identity is untouched) and no effect is emitted, in
particular no registry subscribe and no second low-level listener. -/
theorem c2_subscribe_dedup_noop (subs : SubTable) (p : String)
    (sender : Option Window) (cap : Nat)
    (h : (lookupSub subs p).isSome = true) :
    handleSubscribe subs p sender cap = (subs, []) := by
  unfold handleSubscribe
  by_cases hp : p = "" <;> simp [hp, h]

/-- Witness for C2 at a concrete table. -/
theorem c2_subscribe_dedup_noop_witness :
    (lookupSub [("W1", ⟨1, 0⟩)] "W1").isSome = true ∧
    handleSubscribe [("W1", ⟨1, 0⟩)] "W1" (some ⟨2, false⟩) 5 =
      ([("W1", ⟨1, 0⟩)], []) :=
  ⟨by decide, c2_subscribe_dedup_noop [("W1", ⟨1, 0⟩)] "W1" (some ⟨2, false⟩) 5
    (by decide)⟩

/-- C9: both handlers silently reject the empty worktree path: the
table is unchanged and no effect is emitted, with no error raised. -/
theorem c9_empty_path_silently_rejected (subs : SubTable)
    (sender : Option Window) (cap : Nat) :
    handleSubscribe subs "" sender cap = (subs, []) ∧
    handleUnsubscribe subs "" = (subs, []) := by
  constructor <;> simp [handleSubscribe, handleUnsubscribe]

/-- C7: if the requesting window reference cannot be resolved or the
window is already destroyed, the subscribe handler returns with the
table unchanged and no effect emitted: no registry listener is created
and nothing is recorded. -/
theorem c7_unresolved_window_abandons_subscribe (subs : SubTable) (p : String)
    (sender : Option Window) (cap : Nat)
    (h : sender = none ∨ ∃ w, sender = some w ∧ w.destroyed = true) :
    handleSubscribe subs p sender cap = (subs, []) := by
  rcases h with h | ⟨w, hw, hd⟩
  · subst h
    by_cases hp : p = "" <;> by_cases hs : (lookupSub subs p).isSome <;>
      simp [handleSubscribe, hp, hs]
  · subst hw
    by_cases hp : p = "" <;> by_cases hs : (lookupSub subs p).isSome <;>
      simp [handleSubscribe, hp, hs, hd]

/-- Witness for C7: destroyed sender window on a fresh path. -/
theorem c7_unresolved_window_abandons_subscribe_witness :
    handleSubscribe [] "W1" (some ⟨3, true⟩) 7 = ([], []) :=
  c7_unresolved_window_abandons_subscribe [] "W1" (some ⟨3, true⟩) 7
    (Or.inr ⟨⟨3, true⟩, rfl, rfl⟩)

/-- C6: unsubscribing a recorded worktree invokes its capability and
removes the record; a second unsubscribe for the same worktree, and an
unsubscribe for an unrecorded worktree, are no-ops that leave the table
unchanged and raise no error. -/
theorem c6_unsubscribe_and_double_teardown (subs : SubTable) (p : String)
    (hp : p ≠ "") :
    (∀ sub, lookupSub subs p = some sub →
      handleUnsubscribe subs p =
        (eraseSub subs p, [Effect.invokeUnsubscribe sub.unsubscribe]) ∧
      handleUnsubscribe (eraseSub subs p) p = (eraseSub subs p, [])) ∧
    (lookupSub subs p = none → handleUnsubscribe subs p = (subs, [])) := by
  constructor
  · intro sub h
    constructor
    · unfold handleUnsubscribe
      simp [hp, h]
    · unfold handleUnsubscribe
      simp [hp, lookup_eraseSub]
  · intro h
    unfold handleUnsubscribe
    simp [hp, h]

/-- Witness for C6: teardown then safe double teardown on a singleton. -/
theorem c6_unsubscribe_and_double_teardown_witness :
    handleUnsubscribe [("W1", ⟨1, 4⟩)] "W1" =
      ([], [Effect.invokeUnsubscribe 4]) ∧
    handleUnsubscribe [] "W1" = ([], []) := by
  have h := c6_unsubscribe_and_double_teardown [("W1", ⟨1, 4⟩)] "W1" (by decide)
  exact ⟨((h.1 ⟨1, 4⟩ rfl).1).trans (by decide), (h.1 ⟨1, 4⟩ rfl).2.trans (by decide)⟩

/-- C3: every event the callback delivers goes to the window identity
recorded in the Subscription at subscribe time, never anywhere else
(in particular never to a later-focused window with a different id);
and when the recorded window is alive the event is in fact delivered
to it. -/
theorem c3_route_to_recorded_window (subs : SubTable) (windows : List Window)
    (p : String) (ev : GitWatchEvent) (sendOk : Bool) (sub : Subscription)
    (h : lookupSub subs p = some sub) :
    (∀ wid pa chs, Effect.send wid pa chs ∈
        watchCallback subs windows p ev sendOk → wid = sub.windowId) ∧
    (∀ w, fromId windows sub.windowId = some w → w.destroyed = false →
      Effect.send sub.windowId ev.worktreePath ev.changes ∈
        watchCallback subs windows p ev true) := by
  constructor
  · intro wid pa chs hmem
    rcases hfi : fromId windows sub.windowId with _ | w
    · simp [watchCallback, h, hfi] at hmem
    · by_cases hd : w.destroyed
      · simp [watchCallback, h, hfi, hd] at hmem
      · cases sendOk with
        | false => simp [watchCallback, h, hfi, hd] at hmem
        | true =>
          simp [watchCallback, h, hfi, hd] at hmem
          exact hmem.1
  · intro w hw hd
    simp [watchCallback, h, hw, hd]

/-- Witness for C3: window 1 subscribed, window 2 exists (focused or
not); the event goes to window 1 and not to window 2. -/
theorem c3_route_to_recorded_window_witness :
    Effect.send 1 "W1" ["index"] ∈
      watchCallback [("W1", ⟨1, 9⟩)] [⟨1, false⟩, ⟨2, false⟩] "W1"
        ⟨"W1", ["index"]⟩ true ∧
    Effect.send 2 "W1" ["index"] ∉
      watchCallback [("W1", ⟨1, 9⟩)] [⟨1, false⟩, ⟨2, false⟩] "W1"
        ⟨"W1", ["index"]⟩ true := by
  have h := c3_route_to_recorded_window [("W1", ⟨1, 9⟩)]
    [⟨1, false⟩, ⟨2, false⟩] "W1" ⟨"W1", ["index"]⟩ true ⟨1, 9⟩ rfl
  refine ⟨h.2 ⟨1, false⟩ (by decide) rfl, fun hmem => ?_⟩
  exact absurd (h.1 2 "W1" ["index"] hmem) (by decide)

/-- C4: a window-destroyed cleanup keeps exactly the entries recorded
for other windows, untouched and in order, and invokes the unsubscribe
capability of every entry recorded for the destroyed window. -/
theorem c4_cleanup_window_subscriptions (subs : SubTable) (wid : Nat) :
    (∀ e, e ∈ (cleanupWindowSubscriptions subs wid).1 ↔
      (e ∈ subs ∧ e.2.windowId ≠ wid)) ∧
    (∀ e, e ∈ subs → e.2.windowId = wid →
      Effect.invokeUnsubscribe e.2.unsubscribe ∈
        (cleanupWindowSubscriptions subs wid).2) := by
  induction subs with
  | nil => simp [cleanupWindowSubscriptions]
  | cons x rest ih =>
    constructor
    · intro e
      by_cases hx : x.2.windowId = wid
      · rw [show (cleanupWindowSubscriptions (x :: rest) wid).1 =
            (cleanupWindowSubscriptions rest wid).1 from by
          simp [cleanupWindowSubscriptions, hx]]
        rw [ih.1 e]
        constructor
        · rintro ⟨he, hne⟩
          exact ⟨List.mem_cons_of_mem _ he, hne⟩
        · rintro ⟨he, hne⟩
          rcases List.mem_cons.mp he with he | he
          · subst he; exact absurd hx hne
          · exact ⟨he, hne⟩
      · rw [show (cleanupWindowSubscriptions (x :: rest) wid).1 =
            x :: (cleanupWindowSubscriptions rest wid).1 from by
          simp [cleanupWindowSubscriptions, hx]]
        constructor
        · intro he
          rcases List.mem_cons.mp he with he | he
          · subst he; exact ⟨List.mem_cons_self _ _, hx⟩
          · rcases (ih.1 e).mp he with ⟨he, hne⟩
            exact ⟨List.mem_cons_of_mem _ he, hne⟩
        · rintro ⟨he, hne⟩
          rcases List.mem_cons.mp he with he | he
          · subst he; exact List.mem_cons_self _ _
          · exact List.mem_cons_of_mem _ ((ih.1 e).mpr ⟨he, hne⟩)
    · intro e he hew
      rcases List.mem_cons.mp he with he | he
      · subst he
        simp [cleanupWindowSubscriptions, hew]
      · by_cases hx : x.2.windowId = wid <;>
          simp [cleanupWindowSubscriptions, hx, ih.2 e he hew]

/-- Witness for C4: window 1 entry torn down, window 2 entry kept. -/
theorem c4_cleanup_window_subscriptions_witness :
    (("W2", ⟨2, 8⟩) ∈
      (cleanupWindowSubscriptions [("W1", ⟨1, 9⟩), ("W2", ⟨2, 8⟩)] 1).1) ∧
    (("W1", ⟨1, 9⟩) ∉
      (cleanupWindowSubscriptions [("W1", ⟨1, 9⟩), ("W2", ⟨2, 8⟩)] 1).1) ∧
    Effect.invokeUnsubscribe 9 ∈
      (cleanupWindowSubscriptions [("W1", ⟨1, 9⟩), ("W2", ⟨2, 8⟩)] 1).2 := by
  have h := c4_cleanup_window_subscriptions [("W1", ⟨1, 9⟩), ("W2", ⟨2, 8⟩)] 1
  refine ⟨(h.1 _).mpr ⟨by simp, by decide⟩, fun hm => ?_,
    h.2 ("W1", ⟨1, 9⟩) (by simp) rfl⟩
  exact absurd ((h.1 _).mp hm).2 (by decide)

/-- C5: the shutdown cleanup empties the subscription table, invokes
every remaining record's unsubscribe capability, and only afterwards
invokes the registry disposeAll, which is the final effect. -/
theorem c5_shutdown_cleanup (subs : SubTable) :
    (cleanupGitWatchers subs).1 = [] ∧
    (cleanupGitWatchers subs).2.getLast? = some Effect.disposeAll ∧
    (∀ e, e ∈ subs → Effect.invokeUnsubscribe e.2.unsubscribe ∈
      (cleanupGitWatchers subs).2.dropLast) := by
  refine ⟨rfl, ?_, ?_⟩
  · simp [cleanupGitWatchers]
  · intro e he
    simp only [cleanupGitWatchers, List.dropLast_concat]
    exact mem_unsubscribeAll subs e he

/-- Witness for C5 on a two-entry table. -/
theorem c5_shutdown_cleanup_witness :
    (cleanupGitWatchers [("W1", ⟨1, 9⟩), ("W2", ⟨2, 8⟩)]).1 = [] ∧
    Effect.invokeUnsubscribe 8 ∈
      (cleanupGitWatchers [("W1", ⟨1, 9⟩), ("W2", ⟨2, 8⟩)]).2.dropLast := by
  have h := c5_shutdown_cleanup [("W1", ⟨1, 9⟩), ("W2", ⟨2, 8⟩)]
  exact ⟨h.1, h.2.2 ("W2", ⟨2, 8⟩) (by simp)⟩

/-- C1 counterexample: an event arrives for worktree W1 while a
Subscription for W1 exists, but the recorded window (id 7) no longer
exists; the callback returns with an empty effect trace, so neither
cache slot is invalidated, refuting the claim that invalidation happens
for every event received while a Subscription exists even when the
destination window is gone. -/
theorem c1_invalidate_before_push_cex :
    (lookupSub [("W1", ⟨7, 0⟩)] "W1").isSome = true ∧
    watchCallback [("W1", ⟨7, 0⟩)] [] "W1" ⟨"W1", ["index"]⟩ true = [] :=
  ⟨rfl, rfl⟩

/-- C1 amended: for every event received while a Subscription exists
whose recorded window still resolves to a live window at event time,
both cache slots are invalidated, and any push of the event to the
window comes strictly after both invalidations; a transport error at
push time (sendOk false) does not affect the invalidations, which have
already happened. When the recorded window is gone or destroyed at
event time the callback instead discards the event without invalidating
(see the counterexample). -/
theorem c1_invalidate_before_push (subs : SubTable) (windows : List Window)
    (p : String) (ev : GitWatchEvent) (sendOk : Bool) (sub : Subscription)
    (w : Window) (h : lookupSub subs p = some sub)
    (hw : fromId windows sub.windowId = some w)
    (hd : w.destroyed = false) :
    Effect.invalidateStatus p ∈ watchCallback subs windows p ev sendOk ∧
    Effect.invalidateParsedDiff p ∈ watchCallback subs windows p ev sendOk ∧
    (∀ wid pa chs, Effect.send wid pa chs ∈
        watchCallback subs windows p ev sendOk →
      watchCallback subs windows p ev sendOk =
        [Effect.invalidateStatus p, Effect.invalidateParsedDiff p,
          Effect.send wid pa chs]) := by
  cases sendOk with
  | false =>
    refine ⟨by simp [watchCallback, h, hw, hd], by simp [watchCallback, h, hw, hd], ?_⟩
    intro wid pa chs hmem
    simp [watchCallback, h, hw, hd] at hmem
  | true =>
    refine ⟨by simp [watchCallback, h, hw, hd], by simp [watchCallback, h, hw, hd], ?_⟩
    intro wid pa chs hmem
    simp [watchCallback, h, hw, hd] at hmem ⊢
    exact ⟨hmem.1.symm, hmem.2.1.symm, hmem.2.2.symm⟩

/-- Witness for the amended C1: live recorded window, send succeeding;
both invalidations are in the trace and the send is last. -/
theorem c1_invalidate_before_push_witness :
    Effect.invalidateStatus "W1" ∈
      watchCallback [("W1", ⟨1, 9⟩)] [⟨1, false⟩] "W1" ⟨"W1", ["index"]⟩ true ∧
    watchCallback [("W1", ⟨1, 9⟩)] [⟨1, false⟩] "W1" ⟨"W1", ["index"]⟩ true =
      [Effect.invalidateStatus "W1", Effect.invalidateParsedDiff "W1",
        Effect.send 1 "W1" ["index"]] := by
  have h := c1_invalidate_before_push [("W1", ⟨1, 9⟩)] [⟨1, false⟩] "W1"
    ⟨"W1", ["index"]⟩ true ⟨1, 9⟩ ⟨1, false⟩ rfl (by decide) rfl
  exact ⟨h.1, h.2.2 1 "W1" ["index"] (by decide)⟩

open ThemeScanner in
/-- C8: the vscode:load-theme admissibility check compares normalized
path strings by string-prefix matching; there exists a requested path
that does not reside under any of the four allowed extensions
directories (a sibling directory whose name extends an allowed
directory's name as a string) that the check nevertheless accepts. -/
theorem c8_string_prefix_check_accepts_outside_path :
    ∃ p : String, isAllowedPath "/home/user" p = true ∧
      ∀ d ∈ extensionPaths "/home/user", residesUnder d p = false := by
  refine ⟨"/home/user/.vscode/extensions-evil/dark.json", by decide, ?_⟩
  intro d hd
  fin_cases hd <;> decide

namespace WindowManagerModel

/-!
Stable ids are the strings "main" and "window-" followed by the decimal
numeral of the secondary counter; their pairwise distinctness reduces
to injectivity of the decimal rendering of naturals, proved here by
interpreting the produced digits back into a value.
-/

/-- Numeric value of a decimal digit character. -/
def digitVal (c : Char) : Nat := c.toNat - 48

/-- Value of a most-significant-first decimal digit list. -/
def valOfDigits : List Char → Nat
  | [] => 0
  | c :: cs => digitVal c * 10 ^ cs.length + valOfDigits cs

theorem digitVal_digitChar (d : Nat) (h : d < 10) :
    digitVal (Nat.digitChar d) = d := by
  interval_cases d <;> decide

theorem valOfDigits_toDigitsCore :
    ∀ (fuel n : Nat) (ds : List Char), n < 10 ^ fuel →
      valOfDigits (Nat.toDigitsCore 10 fuel n ds) =
        n * 10 ^ ds.length + valOfDigits ds := by
  intro fuel
  induction fuel with
  | zero =>
    intro n ds h
    have hn : n = 0 := by simpa using Nat.lt_one_iff.mp (by simpa using h)
    subst hn
    simp [Nat.toDigitsCore]
  | succ f ih =>
    intro n ds h
    simp only [Nat.toDigitsCore]
    by_cases h0 : n / 10 = 0
    · have hn := Nat.div_add_mod n 10
      rw [h0, Nat.mul_zero, Nat.zero_add] at hn
      simp only [h0, if_true]
      rw [valOfDigits, digitVal_digitChar (n % 10) (Nat.mod_lt n (by norm_num)),
        hn]
    · have hlt : n / 10 < 10 ^ f := by
        rw [Nat.div_lt_iff_lt_mul (by norm_num : 0 < 10)]
        calc n < 10 ^ (f + 1) := h
          _ = 10 ^ f * 10 := by rw [pow_succ]
      simp only [h0, if_false]
      rw [ih (n / 10) (Nat.digitChar (n % 10) :: ds) hlt, valOfDigits,
        digitVal_digitChar (n % 10) (Nat.mod_lt n (by norm_num))]
      have hn := Nat.div_add_mod n 10
      have harith :
          n / 10 * 10 ^ (Nat.digitChar (n % 10) :: ds).length +
              (n % 10 * 10 ^ ds.length + valOfDigits ds) =
            (10 * (n / 10) + n % 10) * 10 ^ ds.length + valOfDigits ds := by
        simp only [List.length_cons, pow_succ]
        ring
      rw [harith, hn]

theorem valOfDigits_toDigits (n : Nat) :
    valOfDigits (Nat.toDigits 10 n) = n := by
  have h : n < 10 ^ (n + 1) :=
    lt_of_lt_of_le (Nat.lt_pow_self (by norm_num) n)
      (Nat.pow_le_pow_right (by norm_num) (Nat.le_succ n))
  have hc := valOfDigits_toDigitsCore (n + 1) n [] h
  simpa [Nat.toDigits, valOfDigits] using hc

/-- The decimal rendering of naturals is injective. -/
theorem natRepr_inj {m n : Nat} (h : Nat.repr m = Nat.repr n) : m = n := by
  have hd : Nat.toDigits 10 m = Nat.toDigits 10 n := by
    have hdata := congrArg String.data h
    simpa [Nat.repr, List.asString] using hdata
  calc m = valOfDigits (Nat.toDigits 10 m) := (valOfDigits_toDigits m).symm
    _ = valOfDigits (Nat.toDigits 10 n) := by rw [hd]
    _ = n := valOfDigits_toDigits n

/-- Distinct secondary counters give distinct stable id strings. -/
theorem windowStr_inj {a b : Nat}
    (h : "window-" ++ toString a = "window-" ++ toString b) : a = b := by
  apply natRepr_inj
  have hdata := congrArg String.data h
  simp only [String.data_append, List.append_cancel_left_eq] at hdata
  exact String.ext hdata

/-- A secondary stable id is never the string assigned to the first
window. -/
theorem windowStr_ne_main (k : Nat) : "window-" ++ toString k ≠ "main" := by
  intro h
  have hlen := congrArg String.length h
  rw [String.length_append] at hlen
  have h7 : ("window-" : String).length = 7 := rfl
  have h4 : ("main" : String).length = 4 := rfl
  omega

end WindowManagerModel

namespace WindowManagerModel

/-- Map.set on the windows map appends when the key is absent. -/
theorem setWin_not_mem {l : List Nat} {e : Nat} (h : e ∉ l) :
    setWin l e = l ++ [e] := by
  induction l with
  | nil => rfl
  | cons x rest ih =>
    have hx : ¬ (x = e) := by
      intro hh
      exact h (by rw [hh]; exact List.mem_cons_self _ _)
    simp [setWin, hx, ih (fun hm => h (List.mem_cons_of_mem _ hm))]

/-- Map.set on windowIdMap appends when the key is absent. -/
theorem setId_not_mem {m : List (Nat × String)} {e : Nat}
    (h : e ∉ m.map Prod.fst) (v : String) : setId m e v = m ++ [(e, v)] := by
  induction m with
  | nil => rfl
  | cons x rest ih =>
    simp only [List.map_cons, List.mem_cons] at h
    push_neg at h
    have hx : ¬ (x.1 = e) := fun hh => h.1 hh.symm
    simp [setId, hx, ih h.2]

/-- Membership after deleting from the windows map. -/
theorem mem_eraseWin {l : List Nat} {e x : Nat} :
    x ∈ eraseWin l e ↔ x ∈ l ∧ x ≠ e := by
  induction l with
  | nil => simp [eraseWin]
  | cons a rest ih =>
    by_cases ha : a = e
    · subst ha
      rw [show eraseWin (a :: rest) a = eraseWin rest a from by simp [eraseWin]]
      rw [ih]
      simp only [List.mem_cons]
      constructor
      · rintro ⟨hx, hne⟩; exact ⟨Or.inr hx, hne⟩
      · rintro ⟨hx | hx, hne⟩
        · exact absurd hx hne
        · exact ⟨hx, hne⟩
    · rw [show eraseWin (a :: rest) e = a :: eraseWin rest e from by
        simp [eraseWin, ha]]
      simp only [List.mem_cons, ih]
      constructor
      · rintro (hx | ⟨hx, hne⟩)
        · subst hx; exact ⟨Or.inl rfl, ha⟩
        · exact ⟨Or.inr hx, hne⟩
      · rintro ⟨hx | hx, hne⟩
        · subst hx; exact Or.inl rfl
        · exact Or.inr ⟨hx, hne⟩

/-- Membership after deleting from windowIdMap. -/
theorem mem_eraseId {m : List (Nat × String)} {e : Nat} {x : Nat × String} :
    x ∈ eraseId m e ↔ x ∈ m ∧ x.1 ≠ e := by
  induction m with
  | nil => simp [eraseId]
  | cons a rest ih =>
    by_cases ha : a.1 = e
    · rw [show eraseId (a :: rest) e = eraseId rest e from by simp [eraseId, ha]]
      rw [ih]
      simp only [List.mem_cons]
      constructor
      · rintro ⟨hx, hne⟩; exact ⟨Or.inr hx, hne⟩
      · rintro ⟨hx | hx, hne⟩
        · subst hx; exact absurd ha hne
        · exact ⟨hx, hne⟩
    · rw [show eraseId (a :: rest) e = a :: eraseId rest e from by
        simp [eraseId, ha]]
      simp only [List.mem_cons, ih]
      constructor
      · rintro (hx | ⟨hx, hne⟩)
        · subst hx; exact ⟨Or.inl rfl, ha⟩
        · exact ⟨Or.inr hx, hne⟩
      · rintro ⟨hx | hx, hne⟩
        · subst hx; exact Or.inl rfl
        · exact Or.inr ⟨hx, hne⟩

/-- The head of a list, when present, is a member. -/
theorem headMem {l : List Nat} {x : Nat} (h : l.head? = some x) : x ∈ l := by
  cases l with
  | nil => cases h
  | cons a rest =>
    injection h with h
    subst h
    exact List.mem_cons_self _ _

/-- Inductive invariant of the window manager state: the windowIdMap
keys are exactly the registered windows; stable ids are pairwise
distinct; every stable id is "main" or a secondary id below the
counter; the holder of "main", if registered, is the tracked main
window; the tracked main window is registered; and a null tracked main
means no window is registered. -/
structure WMInv (s : WMState) : Prop where
  keysWin : ∀ e, e ∈ s.windows ↔ ∃ st, (e, st) ∈ s.windowIdMap
  valuesInj : ∀ e1 e2 st, (e1, st) ∈ s.windowIdMap →
    (e2, st) ∈ s.windowIdMap → e1 = e2
  valShape : ∀ e st, (e, st) ∈ s.windowIdMap →
    st = "main" ∨ ∃ k, 2 ≤ k ∧ k < s.nextSecondaryId ∧
      st = "window-" ++ toString k
  counterLb : 2 ≤ s.nextSecondaryId
  mainHolder : ∀ e, (e, "main") ∈ s.windowIdMap → s.mainWindowId = some e
  mainInWin : ∀ m, s.mainWindowId = some m → m ∈ s.windows
  mainNoneEmpty : s.mainWindowId = none → s.windows = []

theorem inv_init : WMInv initWM := by
  refine ⟨?_, ?_, ?_, ?_, ?_, ?_, ?_⟩ <;> simp [initWM]

end WindowManagerModel

namespace WindowManagerModel

/-- The invariant is preserved by registering a fresh window id. -/
theorem inv_register {s : WMState} (hInv : WMInv s) {eid : Nat}
    (hfresh : eid ∉ s.windows) : WMInv (register s eid).1 := by
  obtain ⟨win, foc, mainw, idmap, ctr⟩ := s
  rcases mainw with _ | m
  · have hwin : win = [] := hInv.mainNoneEmpty rfl
    subst hwin
    have hmap : idmap = [] := by
      rcases hmapc : idmap with _ | ⟨x, rest⟩
      · rfl
      · exfalso
        have hx := (hInv.keysWin x.1).mpr
          ⟨x.2, by rw [hmapc]; exact List.mem_cons_self _ _⟩
        cases hx
    subst hmap
    have hres : (register ⟨[], foc, none, [], ctr⟩ eid).1 =
        ⟨[eid], some eid, some eid, [(eid, "main")], ctr⟩ := rfl
    rw [hres]
    refine ⟨?_, ?_, ?_, hInv.counterLb, ?_, ?_, ?_⟩
    · intro e
      simp [Prod.ext_iff]
    · intro e1 e2 st h1 h2
      simp [Prod.ext_iff] at h1 h2
      rw [h1.1, h2.1]
    · intro e st hst
      simp [Prod.ext_iff] at hst
      exact Or.inl hst.2
    · intro e hmem
      simp [Prod.ext_iff] at hmem
      rw [hmem]
    · intro m' hm'
      injection hm' with hm'
      simp [hm']
    · intro hnone
      cases hnone
  · have hfw : eid ∉ win := hfresh
    have hkey : eid ∉ idmap.map Prod.fst := by
      intro hk
      rcases List.mem_map.mp hk with ⟨x, hx, hfst⟩
      exact hfw ((hInv.keysWin eid).mpr ⟨x.2, by rw [← hfst]; exact hx⟩)
    have hsw : setWin win eid = win ++ [eid] := setWin_not_mem hfw
    have hsi := setId_not_mem hkey ("window-" ++ toString ctr)
    have hW : (register ⟨win, foc, some m, idmap, ctr⟩ eid).1.windows =
        win ++ [eid] := by simp [register, hsw]
    have hM : (register ⟨win, foc, some m, idmap, ctr⟩ eid).1.windowIdMap =
        idmap ++ [(eid, "window-" ++ toString ctr)] := by simp [register, hsi]
    have hMain : (register ⟨win, foc, some m, idmap, ctr⟩ eid).1.mainWindowId =
        some m := by simp [register]
    have hC :
        (register ⟨win, foc, some m, idmap, ctr⟩ eid).1.nextSecondaryId =
        ctr + 1 := by simp [register]
    refine ⟨?_, ?_, ?_, ?_, ?_, ?_, ?_⟩
    · intro e
      rw [hW, hM]
      simp only [List.mem_append, List.mem_singleton]
      constructor
      · rintro (he | he)
        · obtain ⟨st, hst⟩ := (hInv.keysWin e).mp he
          exact ⟨st, Or.inl hst⟩
        · exact ⟨"window-" ++ toString ctr, Or.inr (by rw [he])⟩
      · rintro ⟨st, hst | hst⟩
        · exact Or.inl ((hInv.keysWin e).mpr ⟨st, hst⟩)
        · injection hst with he _
          exact Or.inr he
    · intro e1 e2 st h1 h2
      rw [hM] at h1 h2
      rcases List.mem_append.mp h1 with h1m | h1m <;>
        rcases List.mem_append.mp h2 with h2m | h2m
      · exact hInv.valuesInj e1 e2 st h1m h2m
      · exfalso
        have hx := List.mem_singleton.mp h2m
        injection hx with he2 hst
        rcases hInv.valShape e1 st h1m with hmn | ⟨k, hk2, hklt, hkst⟩
        · rw [hst] at hmn
          exact windowStr_ne_main ctr hmn
        · rw [hkst] at hst
          have hk := windowStr_inj hst
          have hklt2 : k < ctr := hklt
          omega
      · exfalso
        have hx := List.mem_singleton.mp h1m
        injection hx with he1 hst
        rcases hInv.valShape e2 st h2m with hmn | ⟨k, hk2, hklt, hkst⟩
        · rw [hst] at hmn
          exact windowStr_ne_main ctr hmn
        · rw [hkst] at hst
          have hk := windowStr_inj hst
          have hklt2 : k < ctr := hklt
          omega
      · have hx1 := List.mem_singleton.mp h1m
        have hx2 := List.mem_singleton.mp h2m
        injection hx1 with he1 hst1
        injection hx2 with he2 hst2
        rw [he1, he2]
    · intro e st hst
      rw [hM] at hst
      rw [hC]
      rcases List.mem_append.mp hst with h | h
      · rcases hInv.valShape e st h with h' | ⟨k, hk2, hklt, hkst⟩
        · exact Or.inl h'
        · exact Or.inr ⟨k, hk2, Nat.lt_succ_of_lt hklt, hkst⟩
      · have hx := List.mem_singleton.mp h
        injection hx with he0 hst2
        exact Or.inr ⟨ctr, hInv.counterLb, Nat.lt_succ_self ctr, hst2⟩
    · rw [hC]
      have hcl : 2 ≤ ctr := hInv.counterLb
      omega
    · intro e hmem
      rw [hM] at hmem
      rw [hMain]
      rcases List.mem_append.mp hmem with h | h
      · exact hInv.mainHolder e h
      · exfalso
        have hx := List.mem_singleton.mp h
        injection hx with he0 hst
        exact windowStr_ne_main ctr hst.symm
    · intro m' hm'
      rw [hMain] at hm'
      rw [hW]
      exact List.mem_append_left _ (hInv.mainInWin m' hm')
    · intro hnone
      rw [hMain] at hnone
      cases hnone

/-- The invariant is preserved by the closed handler. -/
theorem inv_closed {s : WMState} (hInv : WMInv s) (eid : Nat) :
    WMInv (closedEv s eid) := by
  obtain ⟨win, foc, mainw, idmap, ctr⟩ := s
  have hW : (closedEv ⟨win, foc, mainw, idmap, ctr⟩ eid).windows =
      eraseWin win eid := rfl
  have hM : (closedEv ⟨win, foc, mainw, idmap, ctr⟩ eid).windowIdMap =
      eraseId idmap eid := rfl
  have hC : (closedEv ⟨win, foc, mainw, idmap, ctr⟩ eid).nextSecondaryId =
      ctr := rfl
  refine ⟨?_, ?_, ?_, ?_, ?_, ?_, ?_⟩
  · intro e
    rw [hW, hM, mem_eraseWin]
    constructor
    · rintro ⟨he, hne⟩
      obtain ⟨st, hst⟩ := (hInv.keysWin e).mp he
      exact ⟨st, mem_eraseId.mpr ⟨hst, hne⟩⟩
    · rintro ⟨st, hst⟩
      obtain ⟨hst, hne⟩ := mem_eraseId.mp hst
      exact ⟨(hInv.keysWin e).mpr ⟨st, hst⟩, hne⟩
  · intro e1 e2 st h1 h2
    rw [hM] at h1 h2
    exact hInv.valuesInj e1 e2 st (mem_eraseId.mp h1).1 (mem_eraseId.mp h2).1
  · intro e st h
    rw [hM] at h
    rw [hC]
    exact hInv.valShape e st (mem_eraseId.mp h).1
  · rw [hC]
    exact hInv.counterLb
  · intro e hmem
    rw [hM] at hmem
    obtain ⟨hmem, hne⟩ := mem_eraseId.mp hmem
    have hold : mainw = some e := hInv.mainHolder e hmem
    have hne2 : e ≠ eid := hne
    have hcond : ¬ (mainw = some eid) := by
      rw [hold]
      intro hcontra
      injection hcontra with hcontra
      exact hne2 hcontra
    simp only [closedEv]
    rw [if_neg hcond]
    exact hold
  · intro m' hm'
    by_cases hcond : mainw = some eid
    · have hmain : (closedEv ⟨win, foc, mainw, idmap, ctr⟩ eid).mainWindowId =
          (eraseWin win eid).head? := by
        simp only [closedEv]
        rw [if_pos hcond]
      rw [hmain] at hm'
      rw [hW]
      exact headMem hm'
    · have hmain : (closedEv ⟨win, foc, mainw, idmap, ctr⟩ eid).mainWindowId =
          mainw := by
        simp only [closedEv]
        rw [if_neg hcond]
      rw [hmain] at hm'
      have hwin := hInv.mainInWin m' hm'
      rw [hW, mem_eraseWin]
      refine ⟨hwin, ?_⟩
      intro he
      exact hcond (by rw [hm', he])
  · intro hnone
    rw [hW]
    by_cases hcond : mainw = some eid
    · have hmain : (closedEv ⟨win, foc, mainw, idmap, ctr⟩ eid).mainWindowId =
          (eraseWin win eid).head? := by
        simp only [closedEv]
        rw [if_pos hcond]
      rw [hmain] at hnone
      cases herase : eraseWin win eid with
      | nil => rfl
      | cons a rest =>
        rw [herase] at hnone
        cases hnone
    · have hmain : (closedEv ⟨win, foc, mainw, idmap, ctr⟩ eid).mainWindowId =
          mainw := by
        simp only [closedEv]
        rw [if_neg hcond]
      rw [hmain] at hnone
      have hwin : win = [] := hInv.mainNoneEmpty hnone
      rw [hwin]
      rfl

/-- The invariant ignores the focused window id. -/
theorem inv_focus {s : WMState} (hInv : WMInv s) (eid : Nat) :
    WMInv { s with focusedWindowId := some eid } :=
  ⟨hInv.keysWin, hInv.valuesInj, hInv.valShape, hInv.counterLb,
    hInv.mainHolder, hInv.mainInWin, hInv.mainNoneEmpty⟩

/-- The invariant is preserved by every admissible step. -/
theorem inv_step {s : WMState} (hInv : WMInv s) {op : Op}
    (hok : okOp s op = true) : WMInv (step s op) := by
  cases op with
  | register eid =>
    have hfresh : eid ∉ s.windows := by simpa [okOp] using hok
    exact inv_register hInv hfresh
  | closed eid => exact inv_closed hInv eid
  | focus eid => exact inv_focus hInv eid

/-- The invariant holds after any admissible run. -/
theorem inv_run : ∀ (ops : List Op) (s : WMState), WMInv s →
    freshRun s ops = true → WMInv (run s ops) := by
  intro ops
  induction ops with
  | nil => intro s h _; exact h
  | cons op rest ih =>
    intro s h hfr
    simp only [freshRun, Bool.and_eq_true] at hfr
    exact ih (step s op) (inv_step h hfr.1) hfr.2

/-- Stable id assigned by register, characterized through the
invariant: "main" exactly when no window is currently registered,
otherwise the current secondary counter value, which is then bumped. -/
theorem register_stable_id {s : WMState} (hInv : WMInv s) (eid : Nat) :
    ((register s eid).2 = "main" ↔ s.windows = []) ∧
    (s.windows ≠ [] →
      (register s eid).2 = "window-" ++ toString s.nextSecondaryId ∧
      (register s eid).1.nextSecondaryId = s.nextSecondaryId + 1) := by
  rcases hmw : s.mainWindowId with _ | m
  · have hwin := hInv.mainNoneEmpty hmw
    constructor
    · exact ⟨fun _ => hwin, fun _ => by simp [register, hmw]⟩
    · intro hne
      exact absurd hwin hne
  · have hm : s.windows ≠ [] := by
      intro h0
      have hmem := hInv.mainInWin m hmw
      rw [h0] at hmem
      cases hmem
    constructor
    · constructor
      · intro hmain
        exfalso
        have hsnd : (register s eid).2 =
            "window-" ++ toString s.nextSecondaryId := by simp [register, hmw]
        rw [hsnd] at hmain
        exact windowStr_ne_main _ hmain
      · intro h0
        exact absurd h0 hm
    · intro _
      constructor <;> simp [register, hmw]

/-- The secondary counter never decreases at a step. -/
theorem counter_monotone (s : WMState) (op : Op) :
    s.nextSecondaryId ≤ (step s op).nextSecondaryId := by
  cases op with
  | register eid =>
    rcases hmw : s.mainWindowId with _ | m
    · simp [step, register, hmw]
    · simp [step, register, hmw]
  | closed eid => simp [step, closedEv]
  | focus eid => simp [step]

end WindowManagerModel

open WindowManagerModel in
/-- C10: along any admissible run of the window manager (register ops
carry Electron ids fresh at the moment they execute), no two currently
registered windows share a stable id; a registration is assigned "main"
exactly when no window is currently registered (initially, and again
only after every window has closed), and otherwise is assigned
"window-" followed by the current secondary counter, which starts at 2,
is bumped by exactly one at that registration, and never decreases at
any step, so secondary ids are never reused. -/
theorem c10_stable_window_ids (ops : List Op) (eid : Nat)
    (h : freshRun initWM ops = true) :
    (∀ e1 e2 st, (e1, st) ∈ (run initWM ops).windowIdMap →
        (e2, st) ∈ (run initWM ops).windowIdMap → e1 = e2) ∧
    ((register (run initWM ops) eid).2 = "main" ↔
      (run initWM ops).windows = []) ∧
    ((run initWM ops).windows ≠ [] →
      (register (run initWM ops) eid).2 =
        "window-" ++ toString (run initWM ops).nextSecondaryId ∧
      2 ≤ (run initWM ops).nextSecondaryId ∧
      (register (run initWM ops) eid).1.nextSecondaryId =
        (run initWM ops).nextSecondaryId + 1) ∧
    (∀ op, (run initWM ops).nextSecondaryId ≤
      (step (run initWM ops) op).nextSecondaryId) := by
  have hInv := inv_run ops initWM inv_init h
  have hreg := register_stable_id hInv eid
  exact ⟨hInv.valuesInj, hreg.1,
    fun hne => ⟨(hreg.2 hne).1, hInv.counterLb, (hreg.2 hne).2⟩,
    fun op => counter_monotone _ op⟩

open WindowManagerModel in
/-- Witness for C10: after registering windows 1 and 2, a third
registration is assigned "window-3", and the first two hold "main" and
"window-2". -/
theorem c10_stable_window_ids_witness :
    freshRun initWM [Op.register 1, Op.register 2] = true ∧
    (register (run initWM [Op.register 1, Op.register 2]) 3).2 =
      "window-3" ∧
    (run initWM [Op.register 1, Op.register 2]).windowIdMap =
      [(1, "main"), (2, "window-2")] := by
  have h := c10_stable_window_ids [Op.register 1, Op.register 2] 3 (by decide)
  refine ⟨by decide, ?_, by decide⟩
  have h2 := (h.2.2.1 (by decide)).1
  rw [h2]
  decide
